import Mathlib

/-!
Verification of the rhythm-tree-to-prerender conversion pipeline
(`PreRenderConverter` and its helpers).

The data model (`RhythmNode`, `Note`/`Tuplet` as `PreRenderModel`) and the
converter functions are embedded from the source.  The exact-fraction
helper class is not part of the sources available here, so it is modelled
from the specification's contract for the fraction primitive.
-/

namespace RhythmTree

/-- Modelled from the spec: the exact-fraction arithmetic primitive
(the helper module with the fraction class is missing from the sources).
A fraction is an integer numerator / denominator pair; arithmetic is exact:
addition cross-multiplies, multiplication by an integer scales the
numerator, division by an integer multiplies the denominator (multiply by
the reciprocal), and reduction returns lowest terms with a positive
denominator. -/
structure Fraction where
  num : Int
  den : Int
deriving DecidableEq

/-- Modelled from the spec: reduction to lowest terms with positive denominator. -/
def Fraction.reduce (f : Fraction) : Fraction :=
  let g : Int := Int.gcd f.num f.den
  if g = 0 then f
  else if f.den / g < 0 then ⟨-(f.num / g), -(f.den / g)⟩
  else ⟨f.num / g, f.den / g⟩

/-- Modelled from the spec: exact sum of two fractions. -/
def Fraction.add (f g : Fraction) : Fraction :=
  ⟨f.num * g.den + g.num * f.den, f.den * g.den⟩

/-- Modelled from the spec: multiplication by an integer scales the numerator. -/
def Fraction.multiply (f : Fraction) (k : Int) : Fraction :=
  ⟨f.num * k, f.den⟩

/-- Modelled from the spec: division by an integer multiplies the denominator. -/
def Fraction.divide (f : Fraction) (k : Int) : Fraction :=
  ⟨f.num, f.den * k⟩

/-- The rational value denoted by a fraction. -/
def Fraction.val (f : Fraction) : ℚ :=
  (f.num : ℚ) / (f.den : ℚ)

/-- `RhythmNode` from the data model: id, relative size, ordered children
(empty list means leaf), rest flag, accent flag, beam group id. -/
inductive RhythmNode : Type where
  | node (id : String) (size : Int) (children : List RhythmNode)
      (isRest : Bool) (isAccented : Bool) (beamID : Option String) : RhythmNode

def RhythmNode.id : RhythmNode → String
  | .node i _ _ _ _ _ => i

def RhythmNode.size : RhythmNode → Int
  | .node _ s _ _ _ _ => s

def RhythmNode.children : RhythmNode → List RhythmNode
  | .node _ _ c _ _ _ => c

def RhythmNode.isRest : RhythmNode → Bool
  | .node _ _ _ r _ _ => r

def RhythmNode.isAccented : RhythmNode → Bool
  | .node _ _ _ _ a _ => a

def RhythmNode.beamID : RhythmNode → Option String
  | .node _ _ _ _ _ b => b

/-- `PreRenderModel`: the tagged union of the output element kinds.
`note` carries id, duration value, rest / tie / accent flags and beam id
(the source's optional booleans are represented with `false` standing for
an absent field); `tuplet` carries id, flattened children, the Vexflow
ratio pair `numNotes` / `notesOccupied`, and the optional ratio `suffix`
assigned by the post-pass. -/
inductive PreRenderModel : Type where
  | note (id : String) (duration : Int) (isRest : Bool) (isTied : Bool)
      (isAccented : Bool) (beamID : Option String) : PreRenderModel
  | tuplet (id : String) (children : List PreRenderModel) (numNotes : Int)
      (notesOccupied : Int) (sfx : Option Int) : PreRenderModel

/-- The valid duration values: `validDurations` from the converter. -/
def validDurations : List Int := [1, 2, 4, 8, 16, 32, 64, 128, 256]

/-- `isValidDuration` from the converter: membership in `validDurations`. -/
def isValidDuration (duration : Int) : Bool :=
  validDurations.contains duration

/-- `getChildrenTotalSize`: sum of the children's sizes. -/
def getChildrenTotalSize (children : List RhythmNode) : Int :=
  (children.map RhythmNode.size).sum

/-- `convertDenominatorToValidDuration`: the breakpoint table mapping an
arbitrary numeric denominator to a valid duration.  The source takes any
JS number, embedded here as a rational. -/
def convertDenominatorToValidDuration (denominator : ℚ) : Int :=
  if denominator = 1 then 1
  else if denominator = 2 ∨ denominator = 3 then 2
  else if 4 ≤ denominator ∧ denominator < 8 then 4
  else if 8 ≤ denominator ∧ denominator < 13 then 8
  else if 13 ≤ denominator ∧ denominator < 25 then 16
  else if 25 ≤ denominator ∧ denominator < 55 then 32
  else if 55 ≤ denominator ∧ denominator < 115 then 64
  else if 115 ≤ denominator ∧ denominator < 240 then 128
  else 256

/-- `createTiedNote`: emit `size` notes of the given duration value for one
source node; a rest node yields untied, unaccented copies, a sounding node
yields a run tied to the next except the last, with the accent (when
present) only on the first note of the run. -/
def createTiedNote (n : RhythmNode) (size : Int) (durationValue : Int) :
    List PreRenderModel :=
  if n.isRest then
    List.replicate size.toNat
      (.note n.id durationValue true false false n.beamID)
  else
    ((List.range (size.toNat - 1)).map fun i =>
      if i = 0 ∧ n.isAccented then
        PreRenderModel.note n.id durationValue false true true n.beamID
      else
        PreRenderModel.note n.id durationValue false true false n.beamID)
    ++ [.note n.id durationValue false false false n.beamID]

/-- `convertToNote`: leaf emission.  Fails on a node with children, on a
fractional numerator, or on a non-valid denominator; emits a tied run when
the numerator exceeds 1 and a single note otherwise. -/
def convertToNote (n : RhythmNode) (containingSpace : Fraction) :
    Except String (List PreRenderModel) :=
  if n.children.length > 0 then
    .error "convert to node called on node that has children"
  else
    let noteThatGetsValue := containingSpace.den
    if containingSpace.num % 1 ≠ 0 then
      .error "This is were i will add handling for when the space needs x2 for weird size stuff"
    else if ¬ (isValidDuration noteThatGetsValue = true) then
      .error "tried to create note with invalid duration"
    else if containingSpace.num > 1 then
      .ok (createTiedNote n containingSpace.num noteThatGetsValue)
    else
      .ok [.note n.id noteThatGetsValue n.isRest false n.isAccented n.beamID]

mutual

/-- `convertNode`: leaf nodes go to `convertToNote`; otherwise the child
unit span decides between plain/tied notation for the children and a
single tuplet. -/
def convertNode (maxTied : Int) (n : RhythmNode) (containingSpace : Fraction) :
    Except String (List PreRenderModel) :=
  match n with
  | .node i sz children r a b =>
    if children.length = 0 then
      convertToNote (.node i sz children r a b) containingSpace
    else
      let childrenSize := getChildrenTotalSize children
      let childDuration := (containingSpace.divide childrenSize).reduce
      if isValidDuration childDuration.den = true ∧ childDuration.num ≤ maxTied then
        convertNodeArray maxTied children childDuration
      else
        match convertToTuplet maxTied (.node i sz children r a b) containingSpace with
        | .error e => .error e
        | .ok t => .ok [t]
termination_by (sizeOf n, 1)

/-- `convertNodeArray`: convert each node with the unit span scaled by its
size, concatenating results in order. -/
def convertNodeArray (maxTied : Int) (nodes : List RhythmNode)
    (childDuration : Fraction) : Except String (List PreRenderModel) :=
  match nodes with
  | [] => .ok []
  | n :: rest =>
    let currentDuration := childDuration.multiply n.size
    match convertNode maxTied n currentDuration with
    | .error e => .error e
    | .ok converted =>
      match convertNodeArray maxTied rest childDuration with
      | .error e => .error e
      | .ok rest_models => .ok (converted ++ rest_models)
termination_by (sizeOf nodes, 0)

/-- `convertToTuplet`: build the irregular-group element; children are
reclassified against the rebased unit span `1 / containingSpace.den`. -/
def convertToTuplet (maxTied : Int) (n : RhythmNode) (containingSpace : Fraction) :
    Except String PreRenderModel :=
  match n with
  | .node i _ children _ _ _ =>
    let numNotes := getChildrenTotalSize children
    let childSize : Fraction := ⟨1, containingSpace.den⟩
    let notesOccupied := containingSpace.num
    match convertNodeArray maxTied children childSize with
    | .error e => .error e
    | .ok kids => .ok (.tuplet i kids numNotes notesOccupied none)
termination_by (sizeOf n, 0)

end

mutual

/-- One step of `addSuffix`: a note passes through unchanged; a tuplet gets
its children processed first (depth-first), accumulates their durations,
and receives the denominator of the reduced unit size as its ratio
marker. -/
def addSuffixModel (m : PreRenderModel) : Except String PreRenderModel :=
  match m with
  | .note i d r t a b => .ok (.note i d r t a b)
  | .tuplet i children numNotes notesOccupied _ =>
    if children.length = 0 then
      .error "Tuplet has no children; cannot calculate the ratio marker."
    else if numNotes = 0 then
      .error "Tuplet has 0 notes; invalid."
    else
      match addSuffixFold children ⟨0, 1⟩ with
      | .error e => .error e
      | .ok (children_out, totalDuration) =>
        let unitSize := (totalDuration.divide numNotes).reduce
        .ok (.tuplet i children_out numNotes notesOccupied (some unitSize.den))
termination_by (sizeOf m, 1)

/-- The child loop of `addSuffix`: walk the children in order, adding
`1/duration` for a note and `notesOccupied/sfx` for a (recursively
processed) tuplet to the accumulated total. -/
def addSuffixFold (children : List PreRenderModel) (acc : Fraction) :
    Except String (List PreRenderModel × Fraction) :=
  match children with
  | [] => .ok ([], acc)
  | .note i d r t a b :: rest =>
    match addSuffixFold rest (acc.add ⟨1, d⟩) with
    | .error e => .error e
    | .ok (l, tot) => .ok (.note i d r t a b :: l, tot)
  | .tuplet ti tch tnn tocc ts :: rest =>
    match addSuffixModel (.tuplet ti tch tnn tocc ts) with
    | .error e => .error e
    | .ok c_out =>
      match c_out with
      | .note _ _ _ _ _ _ =>
        .error "ratio marker not created correctly for tuplet"
      | .tuplet i2 ch2 nn2 occ2 s2 =>
        match s2 with
        | none => .error "ratio marker not created correctly for tuplet"
        | some s =>
          if s = 0 then
            .error "ratio marker not created correctly for tuplet"
          else
            match addSuffixFold rest (acc.add ⟨occ2, s⟩) with
            | .error e => .error e
            | .ok (l, tot) =>
              .ok (.tuplet i2 ch2 nn2 occ2 (some s) :: l, tot)
termination_by (sizeOf children, 0)

end

/-- `addSuffix` applied to a flat list of models: each model is processed
by `addSuffixModel` in order. -/
def addSuffix : List PreRenderModel → Except String (List PreRenderModel)
  | [] => .ok []
  | m :: rest =>
    match addSuffixModel m with
    | .error e => .error e
    | .ok m_out =>
      match addSuffix rest with
      | .error e => .error e
      | .ok rest_out => .ok (m_out :: rest_out)

/-- `convertTreeToPreRender`: normalize the meter denominator, classify the
tree, then run the ratio-marker post-pass. -/
def convertTreeToPreRender (maxTied : Int) (meter : Fraction)
    (rootNode : RhythmNode) : Except String (List PreRenderModel) :=
  let adjustedDenom := convertDenominatorToValidDuration (meter.den : ℚ)
  let adjustedMeter : Fraction := ⟨meter.num, adjustedDenom⟩
  match convertNode maxTied rootNode adjustedMeter with
  | .error e => .error e
  | .ok nodes => addSuffix nodes

/-- The default `maxTied` setting. -/
def defaultMaxTied : Int := 3

end RhythmTree

namespace RhythmTree

/-! ### Fraction value lemmas -/

theorem Fraction.val_mk (n d : Int) : (Fraction.mk n d).val = (n : ℚ) / (d : ℚ) := rfl

theorem Fraction.multiply_val (f : Fraction) (k : Int) :
    (f.multiply k).val = f.val * (k : ℚ) := by
  simp only [Fraction.multiply, Fraction.val, Int.cast_mul, mul_div_right_comm]

theorem Fraction.divide_val (f : Fraction) (k : Int) :
    (f.divide k).val = f.val / (k : ℚ) := by
  simp only [Fraction.divide, Fraction.val, Int.cast_mul, div_div]

theorem Fraction.add_val (f g : Fraction) (hf : f.den ≠ 0) (hg : g.den ≠ 0) :
    (f.add g).val = f.val + g.val := by
  have hf' : (f.den : ℚ) ≠ 0 := Int.cast_ne_zero.mpr hf
  have hg' : (g.den : ℚ) ≠ 0 := Int.cast_ne_zero.mpr hg
  simp only [Fraction.add, Fraction.val]
  push_cast
  field_simp

/-- For a fraction with positive denominator, `reduce` computes exactly the
canonical numerator and denominator of the rational value. -/
theorem Fraction.reduce_eq (f : Fraction) (hd : 0 < f.den) :
    f.reduce = ⟨f.val.num, (f.val.den : Int)⟩ := by
  have hdne : f.den ≠ 0 := ne_of_gt hd
  have hg : 0 < Int.gcd f.num f.den := Int.gcd_pos_iff.mpr (Or.inr hdne)
  set G : Int := (Int.gcd f.num f.den : Int) with hG
  have hgI : (0 : Int) < G := by rw [hG]; exact_mod_cast hg
  have hgne : G ≠ 0 := ne_of_gt hgI
  have hdvd_num : G ∣ f.num := Int.gcd_dvd_left
  have hdvd_den : G ∣ f.den := Int.gcd_dvd_right
  have hden_pos : 0 < f.den / G :=
    Int.ediv_pos_of_pos_of_dvd hd (le_of_lt hgI) hdvd_den
  have hcop : Int.gcd (f.num / G) (f.den / G) = 1 := by
    rw [hG]
    exact Int.gcd_div_gcd_div_gcd hg
  have hval : f.val = ((f.num / G : Int) : ℚ) / ((f.den / G : Int) : ℚ) := by
    obtain ⟨a, ha⟩ := hdvd_num
    obtain ⟨b, hb⟩ := hdvd_den
    have hga : f.num / G = a := by
      rw [ha]; exact Int.mul_ediv_cancel_left a hgne
    have hgb : f.den / G = b := by
      rw [hb]; exact Int.mul_ediv_cancel_left b hgne
    have hgq : (G : ℚ) ≠ 0 := by exact_mod_cast hgne
    rw [hga, hgb, Fraction.val, ha, hb]
    push_cast
    rw [mul_div_mul_left _ _ hgq]
  have hnum : f.val.num = f.num / G := by
    rw [hval]
    exact Rat.num_div_eq_of_coprime hden_pos hcop
  have hden : (f.val.den : Int) = f.den / G := by
    rw [hval]
    exact Rat.den_div_eq_of_coprime hden_pos hcop
  simp only [Fraction.reduce]
  rw [← hG, if_neg hgne, if_neg (by omega)]
  refine congrArg₂ Fraction.mk ?_ ?_
  · exact hnum.symm
  · exact hden.symm

theorem Fraction.reduce_val (f : Fraction) (hd : 0 < f.den) :
    f.reduce.val = f.val := by
  rw [Fraction.reduce_eq f hd, Fraction.val_mk]
  exact_mod_cast Rat.num_div_den f.val

theorem Fraction.reduce_den_pos (f : Fraction) (hd : 0 < f.den) :
    0 < f.reduce.den := by
  rw [Fraction.reduce_eq f hd]
  show (0 : Int) < (f.val.den : Int)
  exact_mod_cast f.val.den_pos

theorem Fraction.reduce_num_pos (f : Fraction) (hd : 0 < f.den) (hn : 0 < f.num) :
    0 < f.reduce.num := by
  rw [Fraction.reduce_eq f hd]
  show 0 < f.val.num
  rw [Rat.num_pos, Fraction.val]
  positivity

end RhythmTree

namespace RhythmTree

/-! ### Helper lemmas -/

theorem isValidDuration_pos (d : Int) (h : isValidDuration d = true) : 0 < d := by
  have hm : d ∈ validDurations := by
    simpa [isValidDuration] using h
  simp only [validDurations, List.mem_cons, List.not_mem_nil, or_false] at hm
  rcases hm with h | h | h | h | h | h | h | h | h <;> omega

theorem range_map_ite_zero (k : ℕ) (A B : PreRenderModel) :
    ((List.range (k + 1)).map fun i => if i = 0 then A else B) =
      A :: List.replicate k B := by
  rw [List.range_succ_eq_map, List.map_cons]
  simp only [if_pos rfl]
  congr 1
  rw [List.map_map]
  have : ((fun i => if i = 0 then A else B) ∘ Nat.succ) = fun _ => B := by
    funext i
    simp [Function.comp]
  rw [this]
  rw [List.map_const']
  rw [List.length_range]

/-! ### C7: the meter-denominator breakpoint table -/

theorem convertDenominator_below_one_cases (q : ℚ) (h13 : 13 ≤ q) (h25 : q < 25) :
    convertDenominatorToValidDuration q = 16 := by
  have n1 : ¬ (q = 1) := by intro h; rw [h] at h13; norm_num at h13
  have n2 : ¬ (q = 2 ∨ q = 3) := by rintro (h | h) <;> rw [h] at h13 <;> norm_num at h13
  have n3 : ¬ (4 ≤ q ∧ q < 8) := by rintro ⟨_, h⟩; linarith
  have n4 : ¬ (8 ≤ q ∧ q < 13) := by rintro ⟨_, h⟩; linarith
  unfold convertDenominatorToValidDuration
  rw [if_neg n1, if_neg n2, if_neg n3, if_neg n4, if_pos ⟨h13, h25⟩]

/-- Claim C7: for every positive integer denominator, the normalization
returns the value of the fixed breakpoint table (1 maps to 1; 2 and 3 map
to 2; 4 through 7 map to 4; 8 through 12 map to 8; 13 through 24 map to 16;
25 through 54 map to 32; 55 through 114 map to 64; 115 through 239 map to
128; 240 and above map to 256). -/
theorem claim_denominator_breakpoint_table (n : ℕ) :
    (n = 1 → convertDenominatorToValidDuration (n : ℚ) = 1) ∧
    ((n = 2 ∨ n = 3) → convertDenominatorToValidDuration (n : ℚ) = 2) ∧
    (4 ≤ n ∧ n ≤ 7 → convertDenominatorToValidDuration (n : ℚ) = 4) ∧
    (8 ≤ n ∧ n ≤ 12 → convertDenominatorToValidDuration (n : ℚ) = 8) ∧
    (13 ≤ n ∧ n ≤ 24 → convertDenominatorToValidDuration (n : ℚ) = 16) ∧
    (25 ≤ n ∧ n ≤ 54 → convertDenominatorToValidDuration (n : ℚ) = 32) ∧
    (55 ≤ n ∧ n ≤ 114 → convertDenominatorToValidDuration (n : ℚ) = 64) ∧
    (115 ≤ n ∧ n ≤ 239 → convertDenominatorToValidDuration (n : ℚ) = 128) ∧
    (240 ≤ n → convertDenominatorToValidDuration (n : ℚ) = 256) := by
  refine ⟨?_, ?_, ?_, ?_, ?_, ?_, ?_, ?_, ?_⟩
  · rintro rfl
    norm_num [convertDenominatorToValidDuration]
  · rintro (rfl | rfl) <;> norm_num [convertDenominatorToValidDuration]
  · rintro ⟨ha, hb⟩
    have ha' : (4 : ℚ) ≤ (n : ℚ) := by exact_mod_cast ha
    have hb' : (n : ℚ) < 8 := by
      have : n < 8 := by omega
      exact_mod_cast this
    have n1 : ¬ ((n : ℚ) = 1) := by intro h; rw [h] at ha'; norm_num at ha'
    have n2 : ¬ ((n : ℚ) = 2 ∨ (n : ℚ) = 3) := by
      rintro (h | h) <;> rw [h] at ha' <;> norm_num at ha'
    unfold convertDenominatorToValidDuration
    rw [if_neg n1, if_neg n2, if_pos ⟨ha', hb'⟩]
  · rintro ⟨ha, hb⟩
    have ha' : (8 : ℚ) ≤ (n : ℚ) := by exact_mod_cast ha
    have hb' : (n : ℚ) < 13 := by
      have : n < 13 := by omega
      exact_mod_cast this
    have n1 : ¬ ((n : ℚ) = 1) := by intro h; rw [h] at ha'; norm_num at ha'
    have n2 : ¬ ((n : ℚ) = 2 ∨ (n : ℚ) = 3) := by
      rintro (h | h) <;> rw [h] at ha' <;> norm_num at ha'
    have n3 : ¬ (4 ≤ (n : ℚ) ∧ (n : ℚ) < 8) := by rintro ⟨_, h⟩; linarith
    unfold convertDenominatorToValidDuration
    rw [if_neg n1, if_neg n2, if_neg n3, if_pos ⟨ha', hb'⟩]
  · rintro ⟨ha, hb⟩
    refine convertDenominator_below_one_cases _ ?_ ?_
    · exact_mod_cast ha
    · have : n < 25 := by omega
      exact_mod_cast this
  · rintro ⟨ha, hb⟩
    have ha' : (25 : ℚ) ≤ (n : ℚ) := by exact_mod_cast ha
    have hb' : (n : ℚ) < 55 := by
      have : n < 55 := by omega
      exact_mod_cast this
    have n1 : ¬ ((n : ℚ) = 1) := by intro h; rw [h] at ha'; norm_num at ha'
    have n2 : ¬ ((n : ℚ) = 2 ∨ (n : ℚ) = 3) := by
      rintro (h | h) <;> rw [h] at ha' <;> norm_num at ha'
    have n3 : ¬ (4 ≤ (n : ℚ) ∧ (n : ℚ) < 8) := by rintro ⟨_, h⟩; linarith
    have n4 : ¬ (8 ≤ (n : ℚ) ∧ (n : ℚ) < 13) := by rintro ⟨_, h⟩; linarith
    have n5 : ¬ (13 ≤ (n : ℚ) ∧ (n : ℚ) < 25) := by rintro ⟨_, h⟩; linarith
    unfold convertDenominatorToValidDuration
    rw [if_neg n1, if_neg n2, if_neg n3, if_neg n4, if_neg n5, if_pos ⟨ha', hb'⟩]
  · rintro ⟨ha, hb⟩
    have ha' : (55 : ℚ) ≤ (n : ℚ) := by exact_mod_cast ha
    have hb' : (n : ℚ) < 115 := by
      have : n < 115 := by omega
      exact_mod_cast this
    have n1 : ¬ ((n : ℚ) = 1) := by intro h; rw [h] at ha'; norm_num at ha'
    have n2 : ¬ ((n : ℚ) = 2 ∨ (n : ℚ) = 3) := by
      rintro (h | h) <;> rw [h] at ha' <;> norm_num at ha'
    have n3 : ¬ (4 ≤ (n : ℚ) ∧ (n : ℚ) < 8) := by rintro ⟨_, h⟩; linarith
    have n4 : ¬ (8 ≤ (n : ℚ) ∧ (n : ℚ) < 13) := by rintro ⟨_, h⟩; linarith
    have n5 : ¬ (13 ≤ (n : ℚ) ∧ (n : ℚ) < 25) := by rintro ⟨_, h⟩; linarith
    have n6 : ¬ (25 ≤ (n : ℚ) ∧ (n : ℚ) < 55) := by rintro ⟨_, h⟩; linarith
    unfold convertDenominatorToValidDuration
    rw [if_neg n1, if_neg n2, if_neg n3, if_neg n4, if_neg n5, if_neg n6,
      if_pos ⟨ha', hb'⟩]
  · rintro ⟨ha, hb⟩
    have ha' : (115 : ℚ) ≤ (n : ℚ) := by exact_mod_cast ha
    have hb' : (n : ℚ) < 240 := by
      have : n < 240 := by omega
      exact_mod_cast this
    have n1 : ¬ ((n : ℚ) = 1) := by intro h; rw [h] at ha'; norm_num at ha'
    have n2 : ¬ ((n : ℚ) = 2 ∨ (n : ℚ) = 3) := by
      rintro (h | h) <;> rw [h] at ha' <;> norm_num at ha'
    have n3 : ¬ (4 ≤ (n : ℚ) ∧ (n : ℚ) < 8) := by rintro ⟨_, h⟩; linarith
    have n4 : ¬ (8 ≤ (n : ℚ) ∧ (n : ℚ) < 13) := by rintro ⟨_, h⟩; linarith
    have n5 : ¬ (13 ≤ (n : ℚ) ∧ (n : ℚ) < 25) := by rintro ⟨_, h⟩; linarith
    have n6 : ¬ (25 ≤ (n : ℚ) ∧ (n : ℚ) < 55) := by rintro ⟨_, h⟩; linarith
    have n7 : ¬ (55 ≤ (n : ℚ) ∧ (n : ℚ) < 115) := by rintro ⟨_, h⟩; linarith
    unfold convertDenominatorToValidDuration
    rw [if_neg n1, if_neg n2, if_neg n3, if_neg n4, if_neg n5, if_neg n6, if_neg n7,
      if_pos ⟨ha', hb'⟩]
  · intro ha
    have ha' : (240 : ℚ) ≤ (n : ℚ) := by exact_mod_cast ha
    have n1 : ¬ ((n : ℚ) = 1) := by intro h; rw [h] at ha'; norm_num at ha'
    have n2 : ¬ ((n : ℚ) = 2 ∨ (n : ℚ) = 3) := by
      rintro (h | h) <;> rw [h] at ha' <;> norm_num at ha'
    have n3 : ¬ (4 ≤ (n : ℚ) ∧ (n : ℚ) < 8) := by rintro ⟨_, h⟩; linarith
    have n4 : ¬ (8 ≤ (n : ℚ) ∧ (n : ℚ) < 13) := by rintro ⟨_, h⟩; linarith
    have n5 : ¬ (13 ≤ (n : ℚ) ∧ (n : ℚ) < 25) := by rintro ⟨_, h⟩; linarith
    have n6 : ¬ (25 ≤ (n : ℚ) ∧ (n : ℚ) < 55) := by rintro ⟨_, h⟩; linarith
    have n7 : ¬ (55 ≤ (n : ℚ) ∧ (n : ℚ) < 115) := by rintro ⟨_, h⟩; linarith
    have n8 : ¬ (115 ≤ (n : ℚ) ∧ (n : ℚ) < 240) := by rintro ⟨_, h⟩; linarith
    unfold convertDenominatorToValidDuration
    rw [if_neg n1, if_neg n2, if_neg n3, if_neg n4, if_neg n5, if_neg n6, if_neg n7,
      if_neg n8]

/-- Witness for C7 at concrete inputs. -/
theorem claim_denominator_breakpoint_table_witness :
    convertDenominatorToValidDuration ((13 : ℕ) : ℚ) = 16 ∧
    convertDenominatorToValidDuration ((239 : ℕ) : ℚ) = 128 ∧
    convertDenominatorToValidDuration ((240 : ℕ) : ℚ) = 256 :=
  ⟨(claim_denominator_breakpoint_table 13).2.2.2.2.1 (by omega),
   (claim_denominator_breakpoint_table 239).2.2.2.2.2.2.2.1 (by omega),
   (claim_denominator_breakpoint_table 240).2.2.2.2.2.2.2.2 (by omega)⟩

/-! ### C9: totality below four -/

/-- Claim C9: the denominator normalization is total on all numeric inputs
and returns 256 for every input below 4 other than exactly 1, 2 or 3 --
including 0, negatives and fractional values. -/
theorem claim_denominator_below_four (q : ℚ) (h4 : q < 4)
    (h1 : q ≠ 1) (h2 : q ≠ 2) (h3 : q ≠ 3) :
    convertDenominatorToValidDuration q = 256 := by
  unfold convertDenominatorToValidDuration
  split_ifs with g1 g2 g3 g4 g5 g6 g7 g8
  · exact absurd g1 h1
  · rcases g2 with g | g
    · exact absurd g h2
    · exact absurd g h3
  · linarith [g3.1]
  · linarith [g4.1]
  · linarith [g5.1]
  · linarith [g6.1]
  · linarith [g7.1]
  · linarith [g8.1]
  · rfl

/-- Witness for C9 at 0, a negative input and the fractional input 3.5. -/
theorem claim_denominator_below_four_witness :
    convertDenominatorToValidDuration 0 = 256 ∧
    convertDenominatorToValidDuration (-5) = 256 ∧
    convertDenominatorToValidDuration (7 / 2) = 256 :=
  ⟨claim_denominator_below_four 0 (by norm_num) (by norm_num) (by norm_num) (by norm_num),
   claim_denominator_below_four (-5) (by norm_num) (by norm_num) (by norm_num) (by norm_num),
   claim_denominator_below_four (7 / 2) (by norm_num) (by norm_num) (by norm_num) (by norm_num)⟩

end RhythmTree

namespace RhythmTree

/-! ### C5: shape of the tied run emitted for a leaf -/

theorem createTiedNote_eq (i : String) (sz : Int) (r a : Bool) (b : Option String)
    (size dv : Int) (h2 : 2 ≤ size.toNat) :
    createTiedNote (.node i sz [] r a b) size dv =
      if r then List.replicate size.toNat (.note i dv true false false b)
      else .note i dv false true a b ::
        (List.replicate (size.toNat - 2) (.note i dv false true false b) ++
         [.note i dv false false false b]) := by
  have hk : size.toNat - 1 = (size.toNat - 2) + 1 := by omega
  unfold createTiedNote
  simp only [RhythmNode.isRest, RhythmNode.id, RhythmNode.isAccented, RhythmNode.beamID]
  cases r
  · simp only [Bool.false_eq_true, if_false]
    rw [hk]
    cases a
    · simp only [Bool.false_eq_true, and_false]
      rw [List.map_const', List.length_range, List.replicate_succ]
      simp
    · have hfun : (fun i2 => if i2 = 0 ∧ (true : Bool) = true then
          PreRenderModel.note i dv false true true b
        else PreRenderModel.note i dv false true false b) =
          fun i2 => if i2 = 0 then PreRenderModel.note i dv false true true b
            else PreRenderModel.note i dv false true false b := by
        funext j
        simp
      rw [hfun, range_map_ite_zero]
      simp
  · simp

/-- Claim C5: a childless node with integer numerator above 1 and a valid
denominator emits exactly `numerator` notes of that duration; when it is
not a rest all but the last are tied, the last is untied, and the accent
(when present) sits only on the first; when it is a rest no note is tied
and none is accented. -/
theorem claim_tied_run_shape (i : String) (sz : Int) (r a : Bool)
    (b : Option String) (cs : Fraction)
    (hval : isValidDuration cs.den = true) (hnum : 1 < cs.num) :
    convertToNote (.node i sz [] r a b) cs = .ok (
      if r then List.replicate cs.num.toNat (.note i cs.den true false false b)
      else .note i cs.den false true a b ::
        (List.replicate (cs.num.toNat - 2) (.note i cs.den false true false b) ++
         [.note i cs.den false false false b])) := by
  have h2 : 2 ≤ cs.num.toNat := by omega
  unfold convertToNote
  simp only [RhythmNode.children, List.length_nil, Int.emod_one]
  norm_num [hval, hnum]
  rw [createTiedNote_eq i sz r a b cs.num cs.den h2]

/-- Witness for C5: an accented non-rest leaf over 3/8 gives a run of three
eighth notes, tied except the last, accent only on the first. -/
theorem claim_tied_run_shape_witness :
    convertToNote (.node "n" 1 [] false true none) ⟨3, 8⟩ =
      .ok [.note "n" 8 false true true none, .note "n" 8 false true false none,
           .note "n" 8 false false false none] := by
  rw [claim_tied_run_shape "n" 1 false true none ⟨3, 8⟩ (by decide) (by decide)]
  rfl

/-! ### C10: a zero-numerator leaf still emits one full note -/

/-- Claim C10: a childless node whose span has numerator 0 and a valid
denominator yields exactly one note of that duration. -/
theorem claim_zero_numerator_leaf (i : String) (sz : Int) (r a : Bool)
    (b : Option String) (d : Int) (h : isValidDuration d = true) :
    convertToNote (.node i sz [] r a b) ⟨0, d⟩ = .ok [.note i d r false a b] := by
  simp [convertToNote, RhythmNode.children, RhythmNode.id, RhythmNode.isRest,
    RhythmNode.isAccented, RhythmNode.beamID, Int.emod_one, h]

/-- Witness for C10 at duration 4. -/
theorem claim_zero_numerator_leaf_witness :
    convertToNote (.node "n" 1 [] true false none) ⟨0, 4⟩ =
      .ok [.note "n" 4 true false false none] :=
  claim_zero_numerator_leaf "n" 1 true false none 4 (by decide)

/-! ### C8: leaf emission fails exactly on an invalid denominator -/

/-- Claim C8: leaf emission fails exactly when the denominator of the span
is not a valid duration (in this integer-fraction model a fractional
numerator cannot arise, so that disjunct of the claim is vacuous), and
succeeds in every other case. -/
theorem claim_leaf_error_iff_invalid_denominator (i : String) (sz : Int)
    (r a : Bool) (b : Option String) (cs : Fraction) :
    (∃ e, convertToNote (.node i sz [] r a b) cs = .error e) ↔
      isValidDuration cs.den = false := by
  cases hv : isValidDuration cs.den
  · simp [convertToNote, RhythmNode.children, Int.emod_one, hv]
  · simp only [convertToNote, RhythmNode.children, List.length_nil, gt_iff_lt,
      lt_self_iff_false, if_false, Int.emod_one, ne_eq, not_true_eq_false,
      not_false_eq_true, hv, ite_false, ite_true]
    constructor
    · rintro ⟨e, he⟩
      split_ifs at he
    · intro h
      simp at h

/-! ### C2: the maxTied cap does not protect leaf emission -/

/-- Claim C2 is violated by the code: a childless root node under meter 5/8
with the default cap of 3 is handed straight to leaf emission, which emits
five notes of duration 8 with the first four tied -- a tied run longer
than maxTied for a non-rest source node. -/
theorem claim_five_eighths_leaf_emits_five_tied :
    convertTreeToPreRender 3 ⟨5, 8⟩ (.node "root" 1 [] false false none) =
      .ok [.note "root" 8 false true false none, .note "root" 8 false true false none,
           .note "root" 8 false true false none, .note "root" 8 false true false none,
           .note "root" 8 false false false none] := by
  norm_num [convertTreeToPreRender, convertNode, convertToNote, createTiedNote,
    isValidDuration, validDurations, convertDenominatorToValidDuration,
    RhythmNode.children, RhythmNode.id,
    RhythmNode.isRest, RhythmNode.isAccented, RhythmNode.beamID,
    List.range_succ]
  simp [addSuffix, addSuffixModel]

end RhythmTree

namespace RhythmTree

/-! ### C3 and C4: the subdivision decision and irregular-group construction -/

/-- A successful `convertNodeArray` run is the concatenation, in child
order, of one successful `convertNode` run per child, each against the
unit span scaled by that child's size. -/
theorem convertNodeArray_ok_parts (mt : Int) (l : List RhythmNode) (cd : Fraction)
    (results : List PreRenderModel)
    (h : convertNodeArray mt l cd = .ok results) :
    ∃ parts : List (List PreRenderModel),
      results = parts.flatten ∧ parts.length = l.length ∧
      ∀ k (hk : k < l.length) (hk2 : k < parts.length),
        convertNode mt (l.get ⟨k, hk⟩) (cd.multiply (l.get ⟨k, hk⟩).size) =
          .ok (parts.get ⟨k, hk2⟩) := by
  induction l generalizing results with
  | nil =>
    refine ⟨[], ?_, rfl, ?_⟩
    · simp only [convertNodeArray] at h
      simp only [List.flatten_nil]
      exact (Except.ok.injEq _ _ ▸ h).symm
    · intro k hk hk2
      simp at hk
  | cons n rest ih =>
    simp only [convertNodeArray] at h
    cases hc : convertNode mt n (cd.multiply n.size) with
    | error e => rw [hc] at h; simp at h
    | ok conv =>
      rw [hc] at h
      cases hr : convertNodeArray mt rest cd with
      | error e => rw [hr] at h; simp at h
      | ok rests =>
        rw [hr] at h
        simp only [Except.ok.injEq] at h
        obtain ⟨parts, hflat, hlen, hall⟩ := ih rests hr
        refine ⟨conv :: parts, ?_, ?_, ?_⟩
        · rw [← h, List.flatten_cons, hflat]
        · simp [hlen]
        · intro k hk hk2
          cases k with
          | zero => simpa using hc
          | succ k2 =>
            have hk' : k2 < rest.length := by simpa using hk
            have hk2' : k2 < parts.length := by simpa using hk2
            simpa using hall k2 hk' hk2'

/-- Claim C3: for a node with children, the classifier reduces
`containingSpan / sum of child sizes`; when the reduced unit span has a
valid-duration denominator and numerator at most maxTied, the children are
classified recursively (each with the unit span scaled by its size) and
concatenated in order; otherwise the node becomes exactly one
irregular-group element. -/
theorem claim_subdivision_decision (mt : Int) (i : String) (sz : Int)
    (children : List RhythmNode) (r a : Bool) (b : Option String)
    (cs cd : Fraction) (hne : children ≠ [])
    (hcd : cd = (cs.divide (getChildrenTotalSize children)).reduce) :
    ((isValidDuration cd.den = true ∧ cd.num ≤ mt) →
      convertNode mt (.node i sz children r a b) cs =
        convertNodeArray mt children cd ∧
      ∀ results, convertNodeArray mt children cd = .ok results →
        ∃ parts : List (List PreRenderModel),
          results = parts.flatten ∧ parts.length = children.length ∧
          ∀ k (hk : k < children.length) (hk2 : k < parts.length),
            convertNode mt (children.get ⟨k, hk⟩)
                (cd.multiply (children.get ⟨k, hk⟩).size) = .ok (parts.get ⟨k, hk2⟩)) ∧
    (¬ (isValidDuration cd.den = true ∧ cd.num ≤ mt) →
      ∀ results, convertNode mt (.node i sz children r a b) cs = .ok results →
        ∃ kids, results = [.tuplet i kids (getChildrenTotalSize children) cs.num none]) := by
  subst hcd
  have hlen : ¬ children.length = 0 := by simpa using hne
  constructor
  · intro hvalid
    constructor
    · simp only [convertNode]
      rw [if_neg hlen, if_pos hvalid]
    · intro results h
      exact convertNodeArray_ok_parts mt children _ results h
  · intro hinvalid results h
    simp only [convertNode] at h
    rw [if_neg hlen, if_neg hinvalid] at h
    cases ht : convertToTuplet mt (.node i sz children r a b) cs with
    | error e => rw [ht] at h; simp at h
    | ok t =>
      rw [ht] at h
      simp only [Except.ok.injEq] at h
      simp only [convertToTuplet] at ht
      cases hk : convertNodeArray mt children ⟨1, cs.den⟩ with
      | error e => rw [hk] at ht; simp at ht
      | ok kids =>
        rw [hk] at ht
        simp only [Except.ok.injEq] at ht
        exact ⟨kids, by rw [← h, ← ht]⟩

/-- Evaluation of the classifier on a 2/8 bar split into three equal
children (used by the C3 witness). -/
theorem convertNode_triplet_eval :
    convertNode 3 (.node "r" 1 [.node "a" 1 [] false false none,
      .node "b" 1 [] false false none, .node "c" 1 [] false false none] false false none)
      ⟨2, 8⟩ =
      .ok [.tuplet "r" [.note "a" 8 false false false none,
        .note "b" 8 false false false none, .note "c" 8 false false false none] 3 2 none] := by
  norm_num [convertNode, convertToTuplet, convertNodeArray, convertToNote, createTiedNote,
    getChildrenTotalSize, Fraction.divide, Fraction.multiply, Fraction.reduce,
    isValidDuration, validDurations,
    RhythmNode.children, RhythmNode.id, RhythmNode.size,
    RhythmNode.isRest, RhythmNode.isAccented, RhythmNode.beamID]

/-- Witness for C3: three equal children over 2/8 give unit span 1/12,
whose denominator is not valid, so the node becomes a single
irregular-group element. -/
theorem claim_subdivision_decision_witness :
    ∃ kids, ([.tuplet "r" [.note "a" 8 false false false none,
        .note "b" 8 false false false none, .note "c" 8 false false false none] 3 2 none] :
        List PreRenderModel) =
      [.tuplet "r" kids 3 2 none] := by
  have h2 := (claim_subdivision_decision 3 "r" 1 [.node "a" 1 [] false false none,
      .node "b" 1 [] false false none, .node "c" 1 [] false false none] false false none
      ⟨2, 8⟩ _ (by simp) rfl).2
  have hn : ¬ (isValidDuration ((Fraction.mk 2 8).divide
      (getChildrenTotalSize [.node "a" 1 [] false false none,
        .node "b" 1 [] false false none, .node "c" 1 [] false false none])).reduce.den = true ∧
      ((Fraction.mk 2 8).divide
      (getChildrenTotalSize [.node "a" 1 [] false false none,
        .node "b" 1 [] false false none, .node "c" 1 [] false false none])).reduce.num ≤ 3) := by
    decide
  obtain ⟨kids, hk⟩ := h2 hn _ convertNode_triplet_eval
  have hocc : (Fraction.mk 2 8).num = 2 := rfl
  rw [hocc] at hk
  exact ⟨kids, by simpa [getChildrenTotalSize, RhythmNode.size] using hk⟩

/-- Claim C4: a node routed to the irregular-group case yields a tuplet
whose numNotes is the sum of the children's sizes and whose notesOccupied
is the span's numerator, with the children reclassified against the rebased
unit span `1/containingSpan.denominator` scaled by each child's size. -/
theorem claim_irregular_group_construction (mt : Int) (i : String) (sz : Int)
    (children : List RhythmNode) (r a : Bool) (b : Option String) (cs : Fraction) :
    ∀ t, convertToTuplet mt (.node i sz children r a b) cs = .ok t →
      ∃ kids, t = .tuplet i kids (getChildrenTotalSize children) cs.num none ∧
        convertNodeArray mt children ⟨1, cs.den⟩ = .ok kids ∧
        ∃ parts : List (List PreRenderModel),
          kids = parts.flatten ∧ parts.length = children.length ∧
          ∀ k (hk : k < children.length) (hk2 : k < parts.length),
            convertNode mt (children.get ⟨k, hk⟩)
                ((Fraction.mk 1 cs.den).multiply (children.get ⟨k, hk⟩).size) =
              .ok (parts.get ⟨k, hk2⟩) := by
  intro t ht
  simp only [convertToTuplet] at ht
  cases hk : convertNodeArray mt children ⟨1, cs.den⟩ with
  | error e => rw [hk] at ht; simp at ht
  | ok kids =>
    rw [hk] at ht
    simp only [Except.ok.injEq] at ht
    obtain ⟨parts, hflat, hlen, hall⟩ := convertNodeArray_ok_parts mt children _ kids hk
    exact ⟨kids, ht.symm, rfl, parts, hflat, hlen, hall⟩

/-- Evaluation of the tuplet builder on the same 2/8 triplet (used by the
C4 witness). -/
theorem convertToTuplet_triplet_eval :
    convertToTuplet 3 (.node "r" 1 [.node "a" 1 [] false false none,
      .node "b" 1 [] false false none, .node "c" 1 [] false false none] false false none)
      ⟨2, 8⟩ =
      .ok (.tuplet "r" [.note "a" 8 false false false none,
        .note "b" 8 false false false none, .note "c" 8 false false false none] 3 2 none) := by
  norm_num [convertToTuplet, convertNode, convertNodeArray, convertToNote, createTiedNote,
    getChildrenTotalSize, Fraction.divide, Fraction.multiply, Fraction.reduce,
    isValidDuration, validDurations,
    RhythmNode.children, RhythmNode.id, RhythmNode.size,
    RhythmNode.isRest, RhythmNode.isAccented, RhythmNode.beamID]

/-- Witness for C4: on the 2/8 triplet the constructed tuplet has
numNotes 3, notesOccupied 2, and eighth-note children classified against
the rebased unit span 1/8. -/
theorem claim_irregular_group_construction_witness :
    ∃ kids, (PreRenderModel.tuplet "r" [.note "a" 8 false false false none,
        .note "b" 8 false false false none, .note "c" 8 false false false none] 3 2 none) =
        .tuplet "r" kids 3 2 none ∧
      convertNodeArray 3 [.node "a" 1 [] false false none,
        .node "b" 1 [] false false none, .node "c" 1 [] false false none] ⟨1, 8⟩ = .ok kids ∧
      ∃ parts : List (List PreRenderModel),
        kids = parts.flatten ∧ parts.length = 3 ∧
        ∀ k (hk : k < 3) (hk2 : k < parts.length),
          convertNode 3 (([.node "a" 1 [] false false none,
            .node "b" 1 [] false false none,
            .node "c" 1 [] false false none] : List RhythmNode).get ⟨k, hk⟩)
              ((Fraction.mk 1 8).multiply (([.node "a" 1 [] false false none,
            .node "b" 1 [] false false none,
            .node "c" 1 [] false false none] : List RhythmNode).get ⟨k, hk⟩).size) =
            .ok (parts.get ⟨k, hk2⟩) :=
  claim_irregular_group_construction 3 "r" 1 [.node "a" 1 [] false false none,
    .node "b" 1 [] false false none, .node "c" 1 [] false false none] false false none ⟨2, 8⟩
    (.tuplet "r" [.note "a" 8 false false false none,
      .note "b" 8 false false false none, .note "c" 8 false false false none] 3 2 none)
    convertToTuplet_triplet_eval

end RhythmTree

namespace RhythmTree

/-- The notated-time contribution of one flat element: `1/duration` for a
note, `notesOccupied / ratio marker` for an irregular group. -/
def contribQ : PreRenderModel → ℚ
  | .note _ d _ _ _ _ => 1 / (d : ℚ)
  | .tuplet _ _ _ occ s => (occ : ℚ) / ((s.getD 0 : Int) : ℚ)

/-- Durations and group sizes in a model are positive. -/
inductive ModelPos : PreRenderModel → Prop where
  | note (i : String) (d : Int) (r t a : Bool) (b : Option String)
      (hd : 0 < d) : ModelPos (.note i d r t a b)
  | tuplet (i : String) (ch : List PreRenderModel) (n occ : Int) (s : Option Int)
      (hn : 0 < n) (hch : ∀ c ∈ ch, ModelPos c) : ModelPos (.tuplet i ch n occ s)

/-- What one successful step of the ratio-marker pass guarantees. -/
def suffixModelOk (m m' : PreRenderModel) : Prop :=
  (∀ i d r t a b, m = PreRenderModel.note i d r t a b → m' = m) ∧
  (∀ i ch n occ s0, m = PreRenderModel.tuplet i ch n occ s0 →
    ∃ ch' total, addSuffixFold ch ⟨0, 1⟩ = .ok (ch', total) ∧ 0 < total.den ∧
      total.val = (ch'.map contribQ).sum ∧ addSuffix ch = .ok ch' ∧
      m' = PreRenderModel.tuplet i ch' n occ (some ((total.divide n).reduce).den) ∧
      0 < ((total.divide n).reduce).den)

/-- What one successful run of the child loop guarantees. -/
def suffixFoldOk (l : List PreRenderModel) (acc : Fraction)
    (l' : List PreRenderModel) (t : Fraction) : Prop :=
  0 < t.den ∧ t.val = acc.val + (l'.map contribQ).sum ∧ addSuffix l = .ok l'

theorem addSuffix_pass_spec :
    (∀ m, ∀ m', ModelPos m → addSuffixModel m = .ok m' → suffixModelOk m m') ∧
    (∀ l acc, ∀ l' t, (∀ c ∈ l, ModelPos c) → 0 < acc.den →
      addSuffixFold l acc = .ok (l', t) → suffixFoldOk l acc l' t) := by
  have main := addSuffixModel.mutual_induct
    (fun m => ∀ m', ModelPos m → addSuffixModel m = .ok m' → suffixModelOk m m')
    (fun l acc => ∀ l' t, (∀ c ∈ l, ModelPos c) → 0 < acc.den →
      addSuffixFold l acc = .ok (l', t) → suffixFoldOk l acc l' t)
    ?_ ?_ ?_ ?_ ?_ ?_ ?_ ?_ ?_ ?_ ?_ ?_ ?_ ?_
  · exact ⟨fun m => main.1 m, fun l acc => main.2 l acc⟩
  · intro i d r t a b m' _ h
    simp only [addSuffixModel, Except.ok.injEq] at h
    subst h
    constructor
    · intro _ _ _ _ _ _ _
      rfl
    · intro _ _ _ _ _ heq
      exact absurd heq (by simp)
  · intro i ch n occ s hlen m' _ h
    simp only [addSuffixModel] at h
    rw [if_pos hlen] at h
    simp at h
  · intro i ch occ s hlen m' _ h
    simp only [addSuffixModel] at h
    rw [if_neg hlen] at h
    simp at h
  · intro i ch n occ s hlen hn e hfold _ m' _ h
    simp only [addSuffixModel] at h
    rw [if_neg hlen, if_neg hn, hfold] at h
    simp at h
  · intro i ch n occ s hlen hn ch' total hfold IH2 m' hpos h
    cases hpos with
    | tuplet _ _ _ _ _ hnpos hchpos =>
      obtain ⟨htden, htval, haddsuf⟩ := IH2 ch' total hchpos (by norm_num) hfold
      simp only [addSuffixModel] at h
      rw [if_neg hlen, if_neg hn, hfold] at h
      simp only [Except.ok.injEq] at h
      subst h
      constructor
      · intro _ _ _ _ _ _ heq
        exact absurd heq (by simp)
      · intro i1 ch1 n1 occ1 s1 heq
        rw [PreRenderModel.tuplet.injEq] at heq
        obtain ⟨rfl, rfl, rfl, rfl, rfl⟩ := heq
        refine ⟨ch', total, hfold, htden, ?_, haddsuf, rfl, ?_⟩
        · rw [htval]
          simp [Fraction.val]
        · apply Fraction.reduce_den_pos
          simpa [Fraction.divide] using mul_pos htden hnpos
  · intro acc l' t _ hacc h
    simp only [addSuffixFold, Except.ok.injEq, Prod.mk.injEq] at h
    obtain ⟨rfl, rfl⟩ := h
    exact ⟨hacc, by simp, rfl⟩
  · intro acc i d r t a b rest e hrec _ l' tt _ _ h
    simp only [addSuffixFold, hrec] at h
    simp at h
  · intro acc i d r t a b rest ch_out total hrec IH l' tt hpos hacc h
    have hd : 0 < d := by
      have h0 := hpos _ (List.mem_cons_self _ _)
      cases h0 with
      | note _ _ _ _ _ _ hd => exact hd
    have hacc2 : 0 < (acc.add ⟨1, d⟩).den := by
      simp only [Fraction.add]
      positivity
    have hrest : ∀ c ∈ rest, ModelPos c := fun c hc => hpos c (List.mem_cons_of_mem _ hc)
    obtain ⟨htden, htval, haddsuf⟩ := IH ch_out total hrest hacc2 hrec
    simp only [addSuffixFold, hrec, Except.ok.injEq, Prod.mk.injEq] at h
    obtain ⟨rfl, rfl⟩ := h
    refine ⟨htden, ?_, ?_⟩
    · rw [htval, Fraction.add_val acc _ (ne_of_gt hacc) (by simpa using ne_of_gt hd)]
      simp only [List.map_cons, List.sum_cons, contribQ, Fraction.val_mk]
      push_cast
      ring
    · simp only [addSuffix, addSuffixModel, haddsuf]
  · intro acc ti tch tnn tocc ts rest e hmodel _ l' tt _ _ h
    simp only [addSuffixFold, hmodel] at h
    simp at h
  · intro acc ti tch tnn tocc ts rest i d r t a b hmodel _ l' tt _ _ h
    simp only [addSuffixFold, hmodel] at h
    simp at h
  · intro acc ti tch tnn tocc ts rest i ch n occ hmodel _ l' tt _ _ h
    simp only [addSuffixFold, hmodel] at h
    simp at h
  · intro acc ti tch tnn tocc ts rest i ch n occ hmodel _ l' tt _ _ h
    simp only [addSuffixFold, hmodel] at h
    simp at h
  · intro acc ti tch tnn tocc ts rest i ch n occ s hs e hrec hmodel _ _ l' tt _ _ h
    simp only [addSuffixFold, hmodel] at h
    rw [if_neg hs] at h
    rw [hrec] at h
    simp at h
  · intro acc ti tch tnn tocc ts rest i ch n occ s hs ch_out total hrec hmodel IH1 IH2
      l' tt hpos hacc h
    have hhead := hpos _ (List.mem_cons_self _ _)
    have hok := IH1 _ hhead hmodel
    obtain ⟨ch'', total2, _, _, _, _, hm'eq, hsfxpos⟩ := hok.2 ti tch tnn tocc ts rfl
    rw [PreRenderModel.tuplet.injEq] at hm'eq
    obtain ⟨_, _, _, hocc_eq, hs_eq⟩ := hm'eq
    have hspos : 0 < s := by
      rw [Option.some.injEq] at hs_eq
      rw [← hs_eq] at hsfxpos
      exact hsfxpos
    have hacc2 : 0 < (acc.add ⟨occ, s⟩).den := by
      simp only [Fraction.add]
      exact mul_pos hacc hspos
    have hrest : ∀ c ∈ rest, ModelPos c := fun c hc => hpos c (List.mem_cons_of_mem _ hc)
    obtain ⟨htden, htval, haddsuf⟩ := IH2 ch_out total hrest hacc2 hrec
    simp only [addSuffixFold, hmodel] at h
    rw [if_neg hs] at h
    rw [hrec] at h
    simp only [Except.ok.injEq, Prod.mk.injEq] at h
    obtain ⟨rfl, rfl⟩ := h
    refine ⟨htden, ?_, ?_⟩
    · rw [htval, Fraction.add_val acc _ (ne_of_gt hacc) (ne_of_gt hspos)]
      simp only [List.map_cons, List.sum_cons, contribQ, Fraction.val_mk,
        Option.getD_some]
      ring
    · simp only [addSuffix, hmodel, haddsuf]

/-- Claim C6: a successful ratio-marker step on an irregular group first
processes its children (depth-first), then assigns as marker the
denominator of `reduce(totalDuration / numNotes)`, where `totalDuration`
accumulates `1/duration` per note child and `notesOccupied/marker` per
(already processed) nested group child. -/
theorem claim_ratio_marker_postpass (i : String) (ch : List PreRenderModel)
    (n occ : Int) (s0 : Option Int) (m' : PreRenderModel)
    (hpos : ModelPos (.tuplet i ch n occ s0))
    (h : addSuffixModel (.tuplet i ch n occ s0) = .ok m') :
    ∃ ch' total, addSuffix ch = .ok ch' ∧
      addSuffixFold ch ⟨0, 1⟩ = .ok (ch', total) ∧
      total.val = (ch'.map contribQ).sum ∧
      m' = .tuplet i ch' n occ (some ((total.divide n).reduce).den) := by
  obtain ⟨ch', total, hfold, _, hval, hsuf, hm, _⟩ :=
    ((addSuffix_pass_spec.1 _ m' hpos h).2) i ch n occ s0 rfl
  exact ⟨ch', total, hsuf, hfold, hval, hm⟩

/-- Evaluation of the ratio-marker step on a 3-in-the-space-of-2 eighth
triplet (used by the C6 witness): the marker is 8. -/
theorem addSuffixModel_triplet_eval :
    addSuffixModel (.tuplet "r" [.note "a" 8 false false false none,
      .note "b" 8 false false false none, .note "c" 8 false false false none] 3 2 none) =
      .ok (.tuplet "r" [.note "a" 8 false false false none,
        .note "b" 8 false false false none, .note "c" 8 false false false none] 3 2 (some 8)) := by
  norm_num [addSuffixModel, addSuffixFold, Fraction.add, Fraction.divide, Fraction.reduce,
    Int.gcd]

/-- Witness for C6: the 3:2 eighth-note triplet receives marker 8. -/
theorem claim_ratio_marker_postpass_witness :
    ∃ ch' total,
      addSuffix [.note "a" 8 false false false none, .note "b" 8 false false false none,
        .note "c" 8 false false false none] = .ok ch' ∧
      addSuffixFold [.note "a" 8 false false false none, .note "b" 8 false false false none,
        .note "c" 8 false false false none] ⟨0, 1⟩ = .ok (ch', total) ∧
      total.val = (ch'.map contribQ).sum ∧
      (PreRenderModel.tuplet "r" [.note "a" 8 false false false none,
        .note "b" 8 false false false none, .note "c" 8 false false false none] 3 2 (some 8)) =
        .tuplet "r" ch' 3 2 (some ((total.divide 3).reduce).den) := by
  apply claim_ratio_marker_postpass "r" _ 3 2 none _ ?_ addSuffixModel_triplet_eval
  refine ModelPos.tuplet _ _ _ _ _ (by norm_num) ?_
  intro c hc
  simp only [List.mem_cons, List.not_mem_nil, or_false] at hc
  rcases hc with rfl | rfl | rfl <;> exact ModelPos.note _ _ _ _ _ _ (by norm_num)

end RhythmTree

namespace RhythmTree

/-- Sizes throughout a rhythm tree are positive (the input contract). -/
inductive SizesPos : RhythmNode → Prop where
  | mk (i : String) (sz : Int) (children : List RhythmNode) (r a : Bool)
      (b : Option String) (hsz : 0 < sz)
      (hch : ∀ c ∈ children, SizesPos c) : SizesPos (.node i sz children r a b)

theorem SizesPos.size_pos {c : RhythmNode} (h : SizesPos c) : 0 < c.size := by
  cases h with
  | mk _ _ _ _ _ _ hsz _ => exact hsz

theorem sizes_sum_nonneg (l : List RhythmNode) (h : ∀ c ∈ l, SizesPos c) :
    0 ≤ getChildrenTotalSize l := by
  induction l with
  | nil => simp [getChildrenTotalSize]
  | cons n rest ih =>
    have h1 := (h n (List.mem_cons_self _ _)).size_pos
    have h2 := ih (fun c hc => h c (List.mem_cons_of_mem _ hc))
    simp only [getChildrenTotalSize, List.map_cons, List.sum_cons] at h2 ⊢
    omega

theorem sizes_sum_pos (l : List RhythmNode) (h : ∀ c ∈ l, SizesPos c) (hne : l ≠ []) :
    0 < getChildrenTotalSize l := by
  cases l with
  | nil => exact absurd rfl hne
  | cons n rest =>
    have h1 := (h n (List.mem_cons_self _ _)).size_pos
    have h2 := sizes_sum_nonneg rest (fun c hc => h c (List.mem_cons_of_mem _ hc))
    simp only [getChildrenTotalSize, List.map_cons, List.sum_cons] at h2 ⊢
    omega

theorem addSuffix_append (xs ys zs : List PreRenderModel)
    (h : addSuffix (xs ++ ys) = .ok zs) :
    ∃ xs' ys', addSuffix xs = .ok xs' ∧ addSuffix ys = .ok ys' ∧ zs = xs' ++ ys' := by
  induction xs generalizing zs with
  | nil =>
    exact ⟨[], zs, rfl, by simpa using h, rfl⟩
  | cons m rest ih =>
    rw [List.cons_append] at h
    simp only [addSuffix] at h
    cases hm : addSuffixModel m with
    | error e => rw [hm] at h; simp at h
    | ok m2 =>
      rw [hm] at h
      cases hr : addSuffix (rest ++ ys) with
      | error e => rw [hr] at h; simp at h
      | ok rs =>
        rw [hr] at h
        simp only [Except.ok.injEq] at h
        obtain ⟨rs1, rs2, ha, hb, hc⟩ := ih rs hr
        refine ⟨m2 :: rs1, rs2, ?_, hb, by rw [← h, hc, List.cons_append]⟩
        simp only [addSuffix, hm, ha]

theorem one_div_cast_den (d : Int) (hd : 0 < d) :
    (((1 : ℚ) / (d : ℚ)).den : Int) = d :=
  Rat.den_div_eq_of_coprime hd (by simp)

theorem cons_replicate_append_single {A : Type} (x : A) (u : Nat) :
    x :: (List.replicate u x ++ [x]) = List.replicate (u + 2) x := by
  rw [← List.cons_append, ← List.replicate_succ, ← List.replicate_succ']

theorem addSuffix_all_notes (ms : List PreRenderModel)
    (h : ∀ m ∈ ms, ∃ i d r t a b, m = PreRenderModel.note i d r t a b) :
    addSuffix ms = .ok ms := by
  induction ms with
  | nil => rfl
  | cons m rest ih =>
    obtain ⟨i, d, r, t, a, b, rfl⟩ := h m (List.mem_cons_self _ _)
    have hr := ih (fun c hc => h c (List.mem_cons_of_mem _ hc))
    simp only [addSuffix, addSuffixModel, hr]

theorem convertToNote_contrib (i : String) (sz : Int) (r a : Bool) (b : Option String)
    (cs : Fraction) (hnum : 0 < cs.num) (hden : 0 < cs.den)
    (ms : List PreRenderModel) (h : convertToNote (.node i sz [] r a b) cs = .ok ms) :
    (∀ m ∈ ms, ModelPos m) ∧
    ∀ ms', addSuffix ms = .ok ms' → (ms'.map contribQ).sum = cs.val := by
  have hval : isValidDuration cs.den = true := by
    by_contra hc
    have hfalse : isValidDuration cs.den = false := by
      cases hv : isValidDuration cs.den
      · rfl
      · exact absurd hv hc
    simp [convertToNote, RhythmNode.children, Int.emod_one, hfalse] at h
  have hdpos : 0 < cs.den := hden
  rcases eq_or_lt_of_le hnum with h1 | h1
  · -- numerator exactly 1
    have h1' : cs.num = 1 := h1.symm
    simp only [convertToNote, RhythmNode.children, List.length_nil, Int.emod_one,
      RhythmNode.id, RhythmNode.isRest, RhythmNode.isAccented, RhythmNode.beamID] at h
    rw [h1'] at h
    norm_num [hval] at h
    subst h
    constructor
    · intro m hm
      simp only [List.mem_cons, List.not_mem_nil, or_false] at hm
      subst hm
      exact ModelPos.note _ _ _ _ _ _ hdpos
    · intro ms' hsuf
      have : addSuffix [PreRenderModel.note i cs.den r false a b] =
          .ok [PreRenderModel.note i cs.den r false a b] :=
        addSuffix_all_notes _ (by intro m hm; simp at hm; subst hm; exact ⟨_, _, _, _, _, _, rfl⟩)
      rw [this] at hsuf
      simp only [Except.ok.injEq] at hsuf
      subst hsuf
      simp only [List.map_cons, List.map_nil, List.sum_cons, List.sum_nil, contribQ]
      rw [Fraction.val, h1']
      push_cast
      ring
  · -- numerator above 1: a tied run
    have h2 : 2 ≤ cs.num.toNat := by omega
    simp only [convertToNote, RhythmNode.children, List.length_nil, Int.emod_one] at h
    norm_num [hval, h1] at h
    rw [createTiedNote_eq i sz r a b cs.num cs.den h2] at h
    have hgt : 1 < cs.num := by omega
    rw [if_pos hgt] at h
    simp only [Except.ok.injEq] at h
    have hnotes : ∀ m ∈ ms, ∃ i2 d2 r2 t2 a2 b2,
        m = PreRenderModel.note i2 d2 r2 t2 a2 b2 ∧ d2 = cs.den := by
      intro m hm
      rw [← h] at hm
      cases r with
      | true =>
        simp only [if_true, ite_true, List.mem_replicate] at hm
        rw [hm.2]
        exact ⟨_, _, _, _, _, _, rfl, rfl⟩
      | false =>
        simp only [Bool.false_eq_true, if_false, ite_false, List.mem_cons,
          List.mem_append, List.mem_replicate, List.not_mem_nil, or_false] at hm
        rcases hm with rfl | ⟨_, rfl⟩ | rfl <;> exact ⟨_, _, _, _, _, _, rfl, rfl⟩
    constructor
    · intro m hm
      obtain ⟨i2, d2, r2, t2, a2, b2, rfl, rfl⟩ := hnotes m hm
      exact ModelPos.note _ _ _ _ _ _ hdpos
    · intro ms' hsuf
      rw [addSuffix_all_notes ms
        (fun m hm => by obtain ⟨i2, d2, r2, t2, a2, b2, rfl, _⟩ := hnotes m hm
                        exact ⟨_, _, _, _, _, _, rfl⟩)] at hsuf
      simp only [Except.ok.injEq] at hsuf
      subst hsuf
      have hcount : (ms.map contribQ) = List.replicate cs.num.toNat (1 / (cs.den : ℚ)) := by
        rw [← h]
        cases r with
        | true =>
          simp [List.map_replicate, contribQ]
        | false =>
          obtain ⟨u, hu⟩ : ∃ u, cs.num.toNat = u + 2 := ⟨cs.num.toNat - 2, by omega⟩
          simp only [Bool.false_eq_true, if_false, ite_false, List.map_cons,
            List.map_append, List.map_replicate, List.map_nil, contribQ, hu]
          exact cons_replicate_append_single _ u
      rw [hcount, List.sum_replicate, nsmul_eq_mul, Fraction.val]
      have : ((cs.num.toNat : ℕ) : ℚ) = (cs.num : ℚ) := by
        have := Int.toNat_of_nonneg (le_of_lt hnum)
        exact_mod_cast congrArg (fun z : ℤ => (z : ℚ)) this
      rw [this]
      ring

theorem convert_contrib_spec (mt : Int) :
    (∀ n cs, SizesPos n → 0 < cs.num → 0 < cs.den →
      ∀ ms, convertNode mt n cs = .ok ms →
        (∀ m ∈ ms, ModelPos m) ∧
        ∀ ms', addSuffix ms = .ok ms' → (ms'.map contribQ).sum = cs.val) ∧
    (∀ n cs, SizesPos n → n.children ≠ [] → 0 < cs.den →
      ∀ t, convertToTuplet mt n cs = .ok t →
        ModelPos t ∧
        ∀ t', addSuffixModel t = .ok t' → contribQ t' = cs.val) ∧
    (∀ l cd, (∀ c ∈ l, SizesPos c) → 0 < cd.num → 0 < cd.den →
      ∀ ms, convertNodeArray mt l cd = .ok ms →
        (∀ m ∈ ms, ModelPos m) ∧
        ∀ ms', addSuffix ms = .ok ms' →
          (ms'.map contribQ).sum = cd.val * ((getChildrenTotalSize l : Int) : ℚ)) := by
  have main := convertNode.mutual_induct mt
    (fun n cs => SizesPos n → 0 < cs.num → 0 < cs.den →
      ∀ ms, convertNode mt n cs = .ok ms →
        (∀ m ∈ ms, ModelPos m) ∧
        ∀ ms', addSuffix ms = .ok ms' → (ms'.map contribQ).sum = cs.val)
    (fun n cs => SizesPos n → n.children ≠ [] → 0 < cs.den →
      ∀ t, convertToTuplet mt n cs = .ok t →
        ModelPos t ∧
        ∀ t', addSuffixModel t = .ok t' → contribQ t' = cs.val)
    (fun l cd => (∀ c ∈ l, SizesPos c) → 0 < cd.num → 0 < cd.den →
      ∀ ms, convertNodeArray mt l cd = .ok ms →
        (∀ m ∈ ms, ModelPos m) ∧
        ∀ ms', addSuffix ms = .ok ms' →
          (ms'.map contribQ).sum = cd.val * ((getChildrenTotalSize l : Int) : ℚ))
    ?_ ?_ ?_ ?_ ?_ ?_ ?_ ?_ ?_ ?_
  · exact ⟨main.1, main.2.1, main.2.2⟩
  -- case 1: leaf
  · intro cs i sz children r a b hlen hs hn hd ms h
    have hch : children = [] := List.length_eq_zero.mp hlen
    subst hch
    simp only [convertNode, List.length_nil, if_pos rfl] at h
    exact convertToNote_contrib i sz r a b cs hn hd ms h
  -- case 2: subdivide branch
  · intro cs i sz children r a b hlen czSize cd hvalid IH3 hs hn hd ms h
    have hcz : czSize = getChildrenTotalSize children := rfl
    have hcd : cd = (cs.divide czSize).reduce := rfl
    have hchpos : ∀ c ∈ children, SizesPos c := by
      cases hs with
      | mk _ _ _ _ _ _ _ hch => exact hch
    have hczpos : 0 < czSize := by
      rw [hcz]
      exact sizes_sum_pos children hchpos (by simpa using hlen)
    have hdivnum : 0 < (cs.divide czSize).num := by
      simpa [Fraction.divide] using hn
    have hdivden : 0 < (cs.divide czSize).den := by
      simp only [Fraction.divide]
      exact mul_pos hd hczpos
    have hcdnum : 0 < cd.num := by
      rw [hcd]
      exact Fraction.reduce_num_pos _ hdivden hdivnum
    have hcdden : 0 < cd.den := by
      rw [hcd]
      exact Fraction.reduce_den_pos _ hdivden
    simp only [convertNode] at h
    rw [if_neg hlen, if_pos hvalid] at h
    obtain ⟨hmp, hsum⟩ := IH3 hchpos hcdnum hcdden ms h
    refine ⟨hmp, ?_⟩
    intro ms' hsuf
    rw [hsum ms' hsuf]
    have hcdval : cd.val = cs.val / ((czSize : Int) : ℚ) := by
      rw [hcd, Fraction.reduce_val _ hdivden, Fraction.divide_val]
    rw [hcdval, hcz]
    have hne : ((getChildrenTotalSize children : Int) : ℚ) ≠ 0 := by
      rw [← hcz]
      exact_mod_cast ne_of_gt hczpos
    field_simp
  -- case 3: tuplet branch, tuplet errors
  · intro cs i sz children r a b hlen czSize cd hinvalid e ht IH2 hs hn hd ms h
    simp only [convertNode] at h
    rw [if_neg hlen, if_neg hinvalid, ht] at h
    simp at h
  -- case 4: tuplet branch, tuplet succeeds
  · intro cs i sz children r a b hlen czSize cd hinvalid t ht IH2 hs hn hd ms h
    simp only [convertNode] at h
    rw [if_neg hlen, if_neg hinvalid, ht] at h
    simp only [Except.ok.injEq] at h
    subst h
    obtain ⟨hmp, hcontrib⟩ := IH2 hs
      (by simp only [RhythmNode.children]; simpa using hlen) hd t ht
    refine ⟨by simpa using hmp, ?_⟩
    intro ms' hsuf
    simp only [addSuffix] at hsuf
    cases hsm : addSuffixModel t with
    | error e => rw [hsm] at hsuf; simp at hsuf
    | ok t' =>
      rw [hsm] at hsuf
      simp only [addSuffix, Except.ok.injEq] at hsuf
      subst hsuf
      simp only [List.map_cons, List.map_nil, List.sum_cons, List.sum_nil, add_zero]
      exact hcontrib t' hsm
  -- case 5: convertToTuplet when the child array errors
  · intro cs i sz children r a b childSize e harr IH3 hs hne hd t ht
    simp only [convertToTuplet] at ht
    rw [harr] at ht
    simp at ht
  -- case 6: convertToTuplet when the child array succeeds
  · intro cs i sz children r a b childSize kids harr IH3 hs hne hd t ht
    have hchpos : ∀ c ∈ children, SizesPos c := by
      cases hs with
      | mk _ _ _ _ _ _ _ hch => exact hch
    have hne' : children ≠ [] := by simpa [RhythmNode.children] using hne
    have hnn : 0 < getChildrenTotalSize children := sizes_sum_pos children hchpos hne'
    have hcsz : childSize = Fraction.mk 1 cs.den := rfl
    have hnum1 : 0 < childSize.num := by rw [hcsz]; norm_num
    have hden1 : 0 < childSize.den := by rw [hcsz]; exact hd
    obtain ⟨hmp, hsum⟩ := IH3 hchpos hnum1 hden1 kids harr
    simp only [convertToTuplet] at ht
    rw [harr] at ht
    simp only [Except.ok.injEq] at ht
    subst ht
    have hmpt : ModelPos (.tuplet i kids (getChildrenTotalSize children) cs.num none) :=
      ModelPos.tuplet _ _ _ _ _ hnn hmp
    refine ⟨hmpt, ?_⟩
    intro t' hst
    obtain ⟨ch', total, hfold, htden, htval, haddsuf, ht'eq, hsfxpos⟩ :=
      ((addSuffix_pass_spec.1 _ t' hmpt hst).2) i kids (getChildrenTotalSize children)
        cs.num none rfl
    have hkidsum := hsum ch' haddsuf
    have hSne : ((getChildrenTotalSize children : Int) : ℚ) ≠ 0 := by
      exact_mod_cast ne_of_gt hnn
    have hdneq : ((cs.den : Int) : ℚ) ≠ 0 := by
      exact_mod_cast ne_of_gt hd
    have htotval : total.val = ((getChildrenTotalSize children : Int) : ℚ) / (cs.den : ℚ) := by
      rw [htval, hkidsum, hcsz, Fraction.val_mk]
      field_simp
    have hunitval : (total.divide (getChildrenTotalSize children)).val =
        1 / (cs.den : ℚ) := by
      rw [Fraction.divide_val, htotval]
      field_simp
      ring
    have hdivden : 0 < (total.divide (getChildrenTotalSize children)).den := by
      simp only [Fraction.divide]
      exact mul_pos htden hnn
    have hsfx : ((total.divide (getChildrenTotalSize children)).reduce).den = cs.den := by
      rw [Fraction.reduce_eq _ hdivden, hunitval]
      exact one_div_cast_den cs.den hd
    rw [ht'eq]
    simp only [contribQ, Option.getD_some]
    rw [hsfx, Fraction.val]
  -- case 7: empty array
  · intro cd _ _ _ ms h
    simp only [convertNodeArray, Except.ok.injEq] at h
    subst h
    refine ⟨by simp, ?_⟩
    intro ms' hsuf
    simp only [addSuffix, Except.ok.injEq] at hsuf
    subst hsuf
    simp [getChildrenTotalSize]
  -- case 8: array cons, head conversion errors
  · intro cd n rest cur e hc IH1 hs hn hd ms h
    simp only [convertNodeArray] at h
    rw [hc] at h
    simp at h
  -- case 9: array cons, head ok, rest errors
  · intro cd n rest cur conv hc e hr IH1 IH3 hs hn hd ms h
    simp only [convertNodeArray] at h
    rw [hc, hr] at h
    simp at h
  -- case 10: array cons, both succeed
  · intro cd n rest cur conv hc rest_models hr IH1 IH3 hs hn hd ms h
    have hcur : cur = cd.multiply n.size := rfl
    have hshead : SizesPos n := hs n (List.mem_cons_self _ _)
    have hsrest : ∀ c ∈ rest, SizesPos c := fun c hc2 => hs c (List.mem_cons_of_mem _ hc2)
    have hszpos : 0 < n.size := hshead.size_pos
    have hcurnum : 0 < cur.num := by
      rw [hcur]
      simp only [Fraction.multiply]
      exact mul_pos hn hszpos
    have hcurden : 0 < cur.den := by
      rw [hcur]
      simpa [Fraction.multiply] using hd
    obtain ⟨hmp1, hsum1⟩ := IH1 hshead hcurnum hcurden conv hc
    obtain ⟨hmp3, hsum3⟩ := IH3 hsrest hn hd rest_models hr
    simp only [convertNodeArray] at h
    rw [hc, hr] at h
    simp only [Except.ok.injEq] at h
    subst h
    constructor
    · intro m hm
      rcases List.mem_append.mp hm with hm | hm
      · exact hmp1 m hm
      · exact hmp3 m hm
    · intro ms' hsuf
      obtain ⟨xs', ys', hx, hy, rfl⟩ := addSuffix_append conv rest_models ms' hsuf
      rw [List.map_append, List.sum_append, hsum1 xs' hx, hsum3 ys' hy]
      rw [hcur, Fraction.multiply_val]
      simp only [getChildrenTotalSize, List.map_cons, List.sum_cons]
      push_cast
      ring

/-- Claim C1: duration conservation.  For every node of the tree (each
recursive call receives the node together with its containing span), the
sum over its emitted elements -- after the ratio-marker post-pass -- of
`1/duration` for notes and `notesOccupied/marker` for irregular groups
equals the node's containing span, provided the tree has positive sizes
and the span is positive. -/
theorem claim_roundtrip_conservation (mt : Int) (n : RhythmNode) (cs : Fraction)
    (hs : SizesPos n) (hn : 0 < cs.num) (hd : 0 < cs.den)
    (ms ms' : List PreRenderModel)
    (hconv : convertNode mt n cs = .ok ms)
    (hsuffix : addSuffix ms = .ok ms') :
    (ms'.map contribQ).sum = cs.val :=
  ((convert_contrib_spec mt).1 n cs hs hn hd ms hconv).2 ms' hsuffix

/-- Witness for C1: a leaf over 3/8 emits three tied eighth notes whose
contributions add to 3/8. -/
theorem claim_roundtrip_conservation_witness :
    (([.note "n" 8 false true false none, .note "n" 8 false true false none,
       .note "n" 8 false false false none] : List PreRenderModel).map contribQ).sum =
      (Fraction.mk 3 8).val := by
  apply claim_roundtrip_conservation 3 (.node "n" 1 [] false false none) ⟨3, 8⟩
    (SizesPos.mk _ _ _ _ _ _ (by norm_num) (by intro c hc; simp at hc))
    (by norm_num) (by norm_num)
    [.note "n" 8 false true false none, .note "n" 8 false true false none,
     .note "n" 8 false false false none]
  · norm_num [convertNode, convertToNote, createTiedNote,
      isValidDuration, validDurations,
      RhythmNode.children, RhythmNode.id, RhythmNode.isRest, RhythmNode.isAccented,
      RhythmNode.beamID, List.range_succ]
    rfl
  · simp [addSuffix, addSuffixModel]

end RhythmTree
